import Mathlib

/-!
Shallow embedding of the DeliveryApp repository (src/App.tsx,
src/services/geminiService.ts, and the unnamed source file holding the
types, the SignaturePad component, and pdfService's generateInvoicePDF).

JavaScript numbers are modelled as rationals (`Rat`); every arithmetic
operation the program performs on them (addition, subtraction,
multiplication) is exact on the values the form manipulates, and the claims
under verification are structural (which expression is computed), not about
floating-point rounding.  Strings are Lean `String`s; `crypto.randomUUID()`
and `new Date()` are modelled as explicit parameters, since the claims do
not depend on their values.
-/

namespace DeliveryApp

/-- `LineItem` from the types file: id, quantity, description, cost, total. -/
structure LineItem where
  id : String
  quantity : Rat
  description : String
  cost : Rat
  total : Rat
deriving Repr, DecidableEq

/-- `InvoiceData` from the types file.  The two optional signer-name fields
are modelled as plain strings (absent = empty), which the claims never
inspect. -/
structure InvoiceData where
  date : String
  invoiceNumber : String
  deliveryLocation : String
  vendorName : String
  vendorEmail : String
  vendorSignerName : String
  receiverSignerName : String
  deliveries : List LineItem
  returns : List LineItem
deriving Repr, DecidableEq

/-- The `'deliveries' | 'returns'` union type used to address one of the two
line-item lists. -/
inductive ItemSection where
  | deliveries
  | returns
deriving Repr, DecidableEq

/-- `prev[type]`: read the addressed list. -/
def getList (inv : InvoiceData) : ItemSection → List LineItem
  | .deliveries => inv.deliveries
  | .returns => inv.returns

/-- `{ ...prev, [type]: items }`: replace the addressed list. -/
def setList (inv : InvoiceData) (sec : ItemSection) (items : List LineItem) :
    InvoiceData :=
  match sec with
  | .deliveries => { inv with deliveries := items }
  | .returns => { inv with returns := items }

/-! ### App.tsx: calculations (lines 324-328) -/

/-- `calculateSectionTotal` (App.tsx line 324):
`items.reduce((acc, curr) => acc + curr.total, 0)`. -/
def calculateSectionTotal (items : List LineItem) : Rat :=
  items.foldl (fun acc curr => acc + curr.total) 0

/-- `netTotal` as computed and displayed by the App (App.tsx lines 326-328). -/
def appNetTotal (inv : InvoiceData) : Rat :=
  calculateSectionTotal inv.deliveries - calculateSectionTotal inv.returns

/-! ### pdfService: summary section (part_000 lines 301-303) -/

/-- `data.deliveries.reduce((sum, item) => sum + item.total, 0)` from
`generateInvoicePDF`. -/
def pdfSectionTotal (items : List LineItem) : Rat :=
  items.foldl (fun sum item => sum + item.total) 0

/-- The net total printed by `generateInvoicePDF`:
`deliveryTotal - returnsTotal` (part_000 line 303). -/
def pdfNetTotal (inv : InvoiceData) : Rat :=
  pdfSectionTotal inv.deliveries - pdfSectionTotal inv.returns

/-- Specification-side sum: the sum of the `total` fields of a list. -/
def sumOfTotals (items : List LineItem) : Rat :=
  (items.map LineItem.total).sum

/-! ### App.tsx: getColIndex (lines 27-35) -/

/-- `getColIndex` (App.tsx lines 27-35): strip non-letters, upper-case,
then Horner-fold `sum = sum * 26 + (code - 65 + 1)` and subtract one. -/
def getColIndex (col : String) : Int :=
  let clean := (col.data.filter Char.isAlpha).map Char.toUpper
  (clean.foldl (fun sum c => 26 * sum + ((c.toNat : Int) - 65 + 1)) 0) - 1

/-- Specification-side bijective base-26 value of a letter string, before
the final minus one: `[] ↦ 0`, and digit `c` contributes `(val c + 1) * 26^k`
positionally, where `val 'A' = 0`. -/
def bij26 : List Char → Int
  | [] => 0
  | c :: ds => ((c.toNat : Int) - 65 + 1) * 26 ^ ds.length + bij26 ds

/-! ### App.tsx: line-item handlers (lines 155-193) -/

/-- The fresh item built by `addLineItem` (App.tsx lines 156-162), with the
`crypto.randomUUID()` value passed in. -/
def newLineItem (uuid : String) : LineItem :=
  { id := uuid, quantity := 1, description := "", cost := 0, total := 0 }

/-- `addLineItem` (App.tsx lines 155-167): append a fresh item to the
addressed list. -/
def addLineItem (inv : InvoiceData) (sec : ItemSection) (uuid : String) :
    InvoiceData :=
  setList inv sec (getList inv sec ++ [newLineItem uuid])

/-- `removeLineItem` (App.tsx lines 169-174):
`prev[type].filter(item => item.id !== id)`. -/
def removeLineItem (inv : InvoiceData) (sec : ItemSection) (id : String) :
    InvoiceData :=
  setList inv sec ((getList inv sec).filter (fun item => item.id ≠ id))

/-- One `field`/`value` pair passed to `updateLineItem`.  `field` ranges over
`keyof LineItem`; each constructor carries a value of the field's type (the
call sites pass a string for `description` and numbers for `quantity` and
`cost`, so `Number(value)` is the identity where the code applies it). -/
inductive FieldUpdate where
  | id (v : String)
  | quantity (v : Rat)
  | description (v : String)
  | cost (v : Rat)
  | total (v : Rat)
deriving Repr, DecidableEq

/-- The body of `updateLineItem`'s map on the matching item (App.tsx lines
179-188): `{ ...item, [field]: value }`, recomputing `total = qty * cost`
exactly when the field is `quantity` or `cost`. -/
def applyField (item : LineItem) : FieldUpdate → LineItem
  | .id v => { item with id := v }
  | .quantity v => { item with quantity := v, total := v * item.cost }
  | .description v => { item with description := v }
  | .cost v => { item with cost := v, total := item.quantity * v }
  | .total v => { item with total := v }

/-- `updateLineItem` (App.tsx lines 176-193). -/
def updateLineItem (inv : InvoiceData) (sec : ItemSection) (id : String)
    (f : FieldUpdate) : InvoiceData :=
  setList inv sec
    ((getList inv sec).map fun item =>
      if item.id = id then applyField item f else item)

/-! ### geminiService.ts: extractInvoiceData (lines 31-88) -/

/-- One raw line item of the parsed Gemini JSON response, after the
`Number(...) || 0` and `|| ""` coercions of lines 69-71 (the response schema
already requires numeric quantity and cost). -/
structure RawItem where
  quantity : Rat
  description : String
  cost : Rat
deriving Repr, DecidableEq

/-- The parsed Gemini JSON response, after the `|| ""` defaults of lines
76-79: header strings default to empty, a missing date to the current day
(kept as a separate `today` parameter below). -/
structure RawInvoice where
  invoiceNumber : String
  date : String
  vendorName : String
  vendorEmail : String
  deliveries : List RawItem
deriving Repr, DecidableEq

/-- The `Partial<InvoiceData>` value that `extractInvoiceData` resolves with:
all six fields of lines 75-82 are always present. -/
structure ExtractedData where
  invoiceNumber : String
  date : String
  vendorName : String
  vendorEmail : String
  deliveries : List LineItem
  returns : List LineItem
deriving Repr, DecidableEq

/-- The mapping of one raw item to a `LineItem` (geminiService.ts lines
67-73): fresh id, and `total := quantity * cost`. -/
def extractedLineItem (uuid : String) (r : RawItem) : LineItem :=
  { id := uuid, quantity := r.quantity, description := r.description,
    cost := r.cost, total := r.quantity * r.cost }

/-- `extractInvoiceData`'s successful result (geminiService.ts lines 64-82).
`uuidGen` supplies the `crypto.randomUUID()` value for the i-th item (the
`.map` over `rawData.deliveries` is rendered as a map over the enumerated
list) and `today` stands for `new Date().toISOString().split('T')[0]`. -/
def extractInvoiceData (uuidGen : Nat → String) (today : String)
    (raw : RawInvoice) : ExtractedData :=
  { invoiceNumber := raw.invoiceNumber
    date := if raw.date = "" then today else raw.date
    vendorName := raw.vendorName
    vendorEmail := raw.vendorEmail
    deliveries := raw.deliveries.enum.map fun p => extractedLineItem (uuidGen p.1) p.2
    returns := [] }

/-! ### App.tsx: handleImageUpload success path (lines 210-218) -/

/-- The `setFormData` merge performed after a successful OCR extraction
(App.tsx lines 211-218): spread `prev`, spread `extractedData`, then
override `invoiceNumber` with `extractedData.invoiceNumber || prev.invoiceNumber`
and `deliveries` with
`extractedData.deliveries?.length ? extractedData.deliveries : prev.deliveries`. -/
def mergeExtracted (prev : InvoiceData) (ext : ExtractedData) : InvoiceData :=
  { prev with
    date := ext.date
    vendorName := ext.vendorName
    vendorEmail := ext.vendorEmail
    returns := ext.returns
    invoiceNumber := if ext.invoiceNumber = "" then prev.invoiceNumber
                     else ext.invoiceNumber
    deliveries := if ext.deliveries.isEmpty then prev.deliveries
                  else ext.deliveries }

/-! ### Operation sequences over the form state -/

/-- One user-visible operation of claim C1: adding a line item, updating a
line item field, or a successful OCR extraction merged into the form. -/
inductive Op where
  | add (sec : ItemSection) (uuid : String)
  | update (sec : ItemSection) (id : String) (f : FieldUpdate)
  | ocr (uuidGen : Nat → String) (today : String) (raw : RawInvoice)

/-- Apply one operation to the form state. -/
def applyOp (inv : InvoiceData) : Op → InvoiceData
  | .add sec uuid => addLineItem inv sec uuid
  | .update sec id f => updateLineItem inv sec id f
  | .ocr g today raw => mergeExtracted inv (extractInvoiceData g today raw)

/-- Apply a sequence of operations, left to right. -/
def runOps (inv : InvoiceData) (ops : List Op) : InvoiceData :=
  ops.foldl applyOp inv

/-- The arithmetic invariant of one line item: the stored `total` equals
`quantity * cost`. -/
def itemInv (it : LineItem) : Prop :=
  it.total = it.quantity * it.cost

instance (it : LineItem) : Decidable (itemInv it) := by
  unfold itemInv; infer_instance

/-- The arithmetic invariant of the whole invoice: every line item in either
the deliveries or the returns list satisfies `itemInv`. -/
def invariantHolds (inv : InvoiceData) : Prop :=
  ∀ it ∈ inv.deliveries ++ inv.returns, itemInv it

instance (inv : InvoiceData) : Decidable (invariantHolds inv) := by
  unfold invariantHolds; infer_instance

/-- `initialInvoiceState` (App.tsx lines 14-24), with the date and the
generated invoice number passed in. -/
def initialInvoiceState (today invNo : String) : InvoiceData :=
  { date := today, invoiceNumber := invNo, deliveryLocation := "Viendong",
    vendorName := "", vendorEmail := "", vendorSignerName := "",
    receiverSignerName := "", deliveries := [], returns := [] }

/-- The list a line-item operation does not address. -/
def otherSection : ItemSection → ItemSection
  | .deliveries => .returns
  | .returns => .deliveries

/-- The header fields of the invoice, i.e. everything except the two
line-item lists. -/
def headerOf (inv : InvoiceData) :
    String × String × String × String × String × String × String :=
  (inv.date, inv.invoiceNumber, inv.deliveryLocation, inv.vendorName,
   inv.vendorEmail, inv.vendorSignerName, inv.receiverSignerName)

/-- Whether a `FieldUpdate` writes the `total` field directly (the one field
for which `updateLineItem` performs no recalculation). -/
def FieldUpdate.setsTotal : FieldUpdate → Bool
  | .total _ => true
  | _ => false

/-- An operation is `allowed` when it is not a direct write of the `total`
field; these are exactly the operations the UI can issue (App.tsx lines
282, 292, 301 pass only `description`, `quantity` and `cost`). -/
def Op.allowed : Op → Prop
  | .update _ _ f => f.setsTotal = false
  | _ => True

instance (op : Op) : Decidable op.allowed := by
  cases op <;> simp only [Op.allowed] <;> infer_instance

/-! ### App.tsx: the hand-rolled CSV line splitter (lines 106-126) -/

/-- `String.prototype.trim()` on a character list.  Lean's
`Char.isWhitespace` (space, tab, CR, LF) stands in for the JS whitespace
class, which coincides on the ASCII data the claims concern. -/
def trimChars (cs : List Char) : List Char :=
  ((cs.dropWhile Char.isWhitespace).reverse.dropWhile Char.isWhitespace).reverse

/-- The character loop of the CSV line splitter (App.tsx lines 113-124):
`current` is the accumulated field text, `inQuote` the quote flag; a double
quote toggles the flag and is dropped, a comma outside quotes pushes the
trimmed field, any other character is appended; the final field is pushed
trimmed when the line ends. -/
def splitCSVLine.go : List Char → List Char → Bool → List (List Char)
  | [], current, _ => [trimChars current]
  | ch :: rest, current, inQuote =>
    if ch = '"' then splitCSVLine.go rest current (!inQuote)
    else if ch = ',' ∧ inQuote = false then
      trimChars current :: splitCSVLine.go rest [] inQuote
    else splitCSVLine.go rest (current ++ [ch]) inQuote

/-- One line split into fields (App.tsx lines 109-126), starting outside
quotes with an empty current field. -/
def splitCSVLine (line : List Char) : List (List Char) :=
  splitCSVLine.go line [] false

/-- Whether position `i` of `line` lies inside quotes when reading starts
with in-quote flag `start`: the flag is `start` xor-ed with the parity of
the number of double-quote characters strictly before `i`. -/
def inQuoteAt (start : Bool) (line : List Char) (i : Nat) : Bool :=
  xor start (decide ((line.take i).count '"' % 2 = 1))

/-- The declarative field boundaries of the claim: the positions of commas
that are not inside quotes, i.e. (for `start = false`) commas preceded by an
even number of double-quote characters. -/
def fieldBoundaries (start : Bool) (line : List Char) : List Nat :=
  (List.range line.length).filter fun i =>
    decide (line.get? i = some ',') && !(inQuoteAt start line i)

/-- Cut a list at the given strictly increasing positions, dropping the
character at each cut position. -/
def cutAt : List Char → List Nat → List (List Char)
  | cs, [] => [cs]
  | cs, b :: bs => cs.take b :: cutAt (cs.drop (b + 1)) (bs.map (· - (b + 1)))
termination_by cs bs => bs.length
decreasing_by simp

/-- The declarative splitter the claim describes: split the line at the
out-of-quote commas, drop the double-quote characters from each field, and
trim it. -/
def specSplitLine (line : List Char) : List (List Char) :=
  (cutAt line (fieldBoundaries false line)).map fun seg =>
    trimChars (seg.filter fun c => c ≠ '"')

/-- Prepend a pending current-field prefix to the (filtered, untrimmed)
fields of the remaining input, trimming every completed field: the shape of
`splitCSVLine.go`'s result. -/
def consFirst (cur : List Char) : List (List Char) → List (List Char)
  | [] => [trimChars cur]
  | f :: fs => trimChars (cur ++ f) :: fs.map trimChars

/-- Prepend a character to the first chunk of a cut, if any. -/
def consHead (c : Char) : List (List Char) → List (List Char)
  | [] => []
  | f :: fs => (c :: f) :: fs

/-! ### App.tsx: validateForm (lines 232-247) -/

/-- The `[^\s@]` character class of the email regular expression. -/
def emailChar (c : Char) : Bool :=
  !c.isWhitespace && !(c == '@')

/-- Backtracking matcher for `p+` followed by a continuation: one or more
characters satisfying `p`, then `k` on the remainder, trying every split
point, exactly as the regex engine does. -/
def plusThen (p : Char → Bool) (k : List Char → Bool) : List Char → Bool
  | [] => false
  | c :: rest => p c && (k rest || plusThen p k rest)

/-- The part of the email regex after `\.`: `[^\s@]+$`, preceded by the
literal dot. -/
def emailTail2 : List Char → Bool
  | [] => false
  | c :: r => if c = '.' then plusThen emailChar List.isEmpty r else false

/-- The part of the email regex after the first `[^\s@]+`: the literal `@`
followed by `[^\s@]+\.[^\s@]+$`. -/
def emailTail1 : List Char → Bool
  | [] => false
  | c :: r => if c = '@' then plusThen emailChar emailTail2 r else false

/-- `emailRegex.test` for `/^[^\s@]+@[^\s@]+\.[^\s@]+$/` (App.tsx line
238). -/
def emailRegexTest (s : String) : Bool :=
  plusThen emailChar emailTail1 s.data

/-- The email pattern as described by the spec: a non-empty local part, a
non-empty domain part and a non-empty suffix, each drawn from the
no-whitespace-no-at class, joined by the literal `@` and `.`. -/
def EmailShape (s : String) : Prop :=
  ∃ l d t : List Char,
    s.data = l ++ '@' :: (d ++ '.' :: t) ∧
    l ≠ [] ∧ d ≠ [] ∧ t ≠ [] ∧
    (∀ c ∈ l, emailChar c = true) ∧ (∀ c ∈ d, emailChar c = true) ∧
    (∀ c ∈ t, emailChar c = true)

/-- `FormErrors` from the types file: at most one message per field. -/
structure FormErrors where
  vendorName : Option String
  vendorEmail : Option String
  invoiceNumber : Option String
  date : Option String
deriving Repr, DecidableEq

/-- The `newErrors` object built by `validateForm` (App.tsx lines 233-243):
a key is present exactly when the corresponding check fails. -/
def validateFormErrors (fd : InvoiceData) : FormErrors :=
  { vendorName :=
      if fd.vendorName.trim = "" then some "Vendor name is required" else none
    invoiceNumber :=
      if fd.invoiceNumber.trim = "" then some "Invoice number is required"
      else none
    vendorEmail :=
      if fd.vendorEmail ≠ "" ∧ emailRegexTest fd.vendorEmail = false then
        some "Invalid email format"
      else if fd.vendorEmail = "" then some "Vendor email is required"
      else none
    date := none }

/-- `validateForm` (App.tsx lines 232-247): record the errors and return
`Object.keys(newErrors).length === 0`. -/
def validateForm (fd : InvoiceData) : FormErrors × Bool :=
  let e := validateFormErrors fd
  (e, decide (e.vendorName = none ∧ e.vendorEmail = none ∧
              e.invoiceNumber = none ∧ e.date = none))

/-! ### App.tsx: handleSubmit (lines 249-267) -/

/-- The observable outcome of `handleSubmit`: either an alert with no PDF
generated, or a call to `generateInvoicePDF` with the form data and the two
signature data-URLs followed by the success alert. -/
inductive SubmitOutcome where
  | alerted (msg : String)
  | generated (inv : InvoiceData) (vSig rSig : String) (msg : String)
deriving Repr, DecidableEq

/-- `handleSubmit` (App.tsx lines 249-267).  The signature states are the
data-URL strings or `null`; `generateInvoicePDF` is modelled as total, so
the catch branch of line 263 (a jsPDF exception) is out of scope. -/
def handleSubmit (fd : InvoiceData)
    (vendorSignature receiverSignature : Option String) : SubmitOutcome :=
  if (validateForm fd).2 = false then
    .alerted "Please fix errors before submitting."
  else
    match vendorSignature, receiverSignature with
    | some v, some r =>
        .generated fd v r
          ("Form submitted! Sending email to " ++ fd.vendorEmail ++
           "... (Simulated)")
    | _, _ => .alerted "Both signatures are required."

/-! ### App.tsx: fetchVendorsFromSheet (lines 81-152) -/

/-- `Vendor` from the types file. -/
structure Vendor where
  name : String
  email : String
deriving Repr, DecidableEq

/-- `.replace(/^"|"$/g, '')` (App.tsx lines 130-131): remove one leading
and one trailing double-quote character, if present. -/
def stripOuterQuotes (cs : List Char) : List Char :=
  let cs1 := match cs with
    | '"' :: rest => rest
    | _ => cs
  match cs1.reverse with
  | '"' :: rest => rest.reverse
  | _ => cs1

/-- `cols[idx]` with a JS index that may be `-1` (out of range gives
`undefined`, modelled as `none`). -/
def getCell (cols : List (List Char)) (idx : Int) : Option (List Char) :=
  if idx < 0 then none else cols.get? idx.toNat

/-- `cols[idx]?.replace(/^"|"$/g, '').trim()` followed by the `|| ''`
default (App.tsx lines 130-135). -/
def cleanCell (cols : List (List Char)) (idx : Int) : String :=
  match getCell cols idx with
  | none => ""
  | some cs => String.mk (trimChars (stripOuterQuotes cs))

/-- The vendor-parsing pipeline of `fetchVendorsFromSheet` (App.tsx lines
106-136): split the CSV text into lines, split each line with the
quote-aware splitter, clean the two addressed cells, and keep the rows with
a non-blank name that is not the literal header and a row index above 0. -/
def parseVendors (csvText : String) (nameIdx emailIdx : Int) : List Vendor :=
  let lines := csvText.splitOn "\n"
  let rows := lines.map fun l => splitCSVLine l.data
  let mapped := rows.map fun cols =>
    Vendor.mk (cleanCell cols nameIdx) (cleanCell cols emailIdx)
  (mapped.enum.filter fun p =>
    p.2.name ≠ "" ∧ p.2.name.toLower ≠ "vendor name" ∧ p.1 > 0).map Prod.snd

/-- The component state touched by `fetchVendorsFromSheet`. -/
structure SheetState where
  sheetId : String
  sheetName : String
  nameCol : String
  emailCol : String
  vendors : List Vendor
  sheetError : Option String
  isFetchingVendors : Bool
  showSheetConfig : Bool
deriving Repr, DecidableEq

/-- The outcome of the single `fetch` call: a rejected promise (network
error, carrying `err.message`) or a response with its `ok` flag and body
text. -/
inductive FetchResult where
  | networkFailure (msg : String)
  | response (ok : Bool) (body : String)
deriving Repr, DecidableEq

/-- `fetchVendorsFromSheet` (App.tsx lines 81-152) as an atomic state
transformer over one completed invocation, given the fetch outcome.  The
early return on a missing id or name only sets the error; in the main path
the `finally` clears the fetching flag, errors land in the catch which
stores `err.message || "Failed to fetch data."`, and the vendors and config
visibility are only written on success. -/
def fetchVendorsFromSheet (s : SheetState) (fr : FetchResult) : SheetState :=
  if s.sheetId = "" ∨ s.sheetName = "" then
    { s with sheetError := some "Please enter Spreadsheet ID and Sheet Name" }
  else
    match fr with
    | .networkFailure msg =>
        { s with
          sheetError := some (if msg = "" then "Failed to fetch data." else msg)
          isFetchingVendors := false }
    | .response ok body =>
        if ok = false then
          { s with
            sheetError := some
              "Failed to connect. Ensure the Google Sheet is \x27Public\x27 (Anyone with the link) and the Sheet Name is correct."
            isFetchingVendors := false }
        else
          let loaded :=
            parseVendors body (getColIndex s.nameCol) (getColIndex s.emailCol)
          if loaded = [] then
            { s with
              sheetError := some "No valid vendors found. Check column letters."
              isFetchingVendors := false }
          else
            { s with
              vendors := loaded,
              showSheetConfig := false,
              sheetError := none,
              isFetchingVendors := false }

/-! ## Helper lemmas -/

theorem foldl_add_total (l : List LineItem) :
    ∀ a : Rat, l.foldl (fun acc curr => acc + curr.total) a = a + sumOfTotals l := by
  induction l with
  | nil => intro a; simp [sumOfTotals]
  | cons x xs ih =>
      intro a
      simp only [List.foldl_cons, ih, sumOfTotals, List.map_cons, List.sum_cons]
      ring

theorem foldl_horner (l : List Char) :
    ∀ a : Int,
      l.foldl (fun sum c => 26 * sum + ((c.toNat : Int) - 65 + 1)) a
        = a * 26 ^ l.length + bij26 l := by
  induction l with
  | nil => intro a; simp [bij26]
  | cons c cs ih =>
      intro a
      simp only [List.foldl_cons, ih, bij26, List.length_cons]
      ring

theorem getList_setList_same (inv : InvoiceData) (sec : ItemSection)
    (l : List LineItem) : getList (setList inv sec l) sec = l := by
  cases sec <;> rfl

theorem getList_setList_other (inv : InvoiceData) (sec : ItemSection)
    (l : List LineItem) :
    getList (setList inv sec l) (otherSection sec) = getList inv (otherSection sec) := by
  cases sec <;> rfl

theorem headerOf_setList (inv : InvoiceData) (sec : ItemSection)
    (l : List LineItem) : headerOf (setList inv sec l) = headerOf inv := by
  cases sec <;> rfl

theorem setList_getList (inv : InvoiceData) (sec : ItemSection) :
    setList inv sec (getList inv sec) = inv := by
  cases sec <;> rfl

theorem filter_eq_self_of {α : Type} (l : List α) (p : α → Bool)
    (h : ∀ a ∈ l, p a = true) : l.filter p = l := by
  induction l with
  | nil => rfl
  | cons x xs ih => simp_all [List.filter_cons]

theorem map_eq_self_of {α : Type} (l : List α) (g : α → α)
    (h : ∀ a ∈ l, g a = a) : l.map g = l := by
  induction l with
  | nil => rfl
  | cons x xs ih => simp_all

theorem map_congr_mem {α β : Type} {l : List α} {f g : α → β}
    (h : ∀ a ∈ l, f a = g a) : l.map f = l.map g := by
  induction l with
  | nil => rfl
  | cons x xs ih => simp_all

theorem invariantHolds_iff (inv : InvoiceData) :
    invariantHolds inv ↔
      (∀ it ∈ inv.deliveries, itemInv it) ∧ (∀ it ∈ inv.returns, itemInv it) := by
  unfold invariantHolds
  constructor
  · intro h
    exact ⟨fun it hit => h it (List.mem_append.2 (Or.inl hit)),
           fun it hit => h it (List.mem_append.2 (Or.inr hit))⟩
  · rintro ⟨h1, h2⟩ it hit
    rcases List.mem_append.1 hit with hmem | hmem
    exacts [h1 it hmem, h2 it hmem]

theorem invariant_getList {inv : InvoiceData} (h : invariantHolds inv)
    (sec : ItemSection) : ∀ it ∈ getList inv sec, itemInv it := by
  rw [invariantHolds_iff] at h
  cases sec
  exacts [h.1, h.2]

theorem invariant_setList {inv : InvoiceData} (sec : ItemSection)
    {l : List LineItem} (h : invariantHolds inv) (hl : ∀ it ∈ l, itemInv it) :
    invariantHolds (setList inv sec l) := by
  rw [invariantHolds_iff] at h ⊢
  cases sec
  · exact ⟨fun it hit => hl it (by simpa [setList] using hit),
           fun it hit => h.2 it (by simpa [setList] using hit)⟩
  · exact ⟨fun it hit => h.1 it (by simpa [setList] using hit),
           fun it hit => hl it (by simpa [setList] using hit)⟩

theorem itemInv_newLineItem (uuid : String) : itemInv (newLineItem uuid) := by
  simp [itemInv, newLineItem]

theorem itemInv_extractedLineItem (uuid : String) (r : RawItem) :
    itemInv (extractedLineItem uuid r) := rfl

theorem itemInv_applyField {it : LineItem} (h : itemInv it) :
    ∀ f : FieldUpdate, f.setsTotal = false → itemInv (applyField it f) := by
  intro f hf
  cases f <;> simp_all [itemInv, applyField, FieldUpdate.setsTotal]

theorem invariant_applyOp {inv : InvoiceData} {op : Op}
    (h : invariantHolds inv) (ha : op.allowed) :
    invariantHolds (applyOp inv op) := by
  rcases op with ⟨sec, uuid⟩ | ⟨sec, id, f⟩ | ⟨g, today, raw⟩
  · refine invariant_setList sec h ?_
    intro it hit
    rcases List.mem_append.1 hit with hmem | hmem
    · exact invariant_getList h sec it hmem
    · rcases List.mem_singleton.1 hmem with rfl
      exact itemInv_newLineItem uuid
  · refine invariant_setList sec h ?_
    intro it hit
    rcases List.mem_map.1 hit with ⟨a, ha', rfl⟩
    by_cases hid : a.id = id
    · simpa [hid] using itemInv_applyField (invariant_getList h sec a ha') f ha
    · simpa [hid] using invariant_getList h sec a ha'
  · rw [invariantHolds_iff]
    constructor
    · intro it hit
      simp only [applyOp, mergeExtracted] at hit
      by_cases hemp : (extractInvoiceData g today raw).deliveries.isEmpty
      · exact invariant_getList h .deliveries it (by simpa [hemp] using hit)
      · have hit' : it ∈ (extractInvoiceData g today raw).deliveries := by
          simpa [hemp] using hit
        simp only [extractInvoiceData] at hit'
        rcases List.mem_map.1 hit' with ⟨p, hp, rfl⟩
        exact itemInv_extractedLineItem (g p.1) p.2
    · intro it hit
      simp [applyOp, mergeExtracted, extractInvoiceData] at hit

theorem boundaryPred_succ (q : Bool) (c : Char) (cs : List Char) (i : Nat) :
    (decide ((c :: cs).get? (i + 1) = some ',') && !(inQuoteAt q (c :: cs) (i + 1)))
      = (decide (cs.get? i = some ',') &&
          !(inQuoteAt (if c = '"' then !q else q) cs i)) := by
  have hget : (c :: cs).get? (i + 1) = cs.get? i := rfl
  have htake : (c :: cs).take (i + 1) = c :: cs.take i := rfl
  unfold inQuoteAt
  rw [hget, htake]
  by_cases hc : c = '"'
  · subst hc
    rw [if_pos rfl]
    have hcount : (('"' :: cs.take i).count '"') = (cs.take i).count '"' + 1 := by
      simp
    rw [hcount]
    generalize (cs.take i).count '"' = n
    have h1 : ((n + 1) % 2 = 1) ↔ ¬(n % 2 = 1) := by omega
    by_cases hp : n % 2 = 1 <;> cases q <;> simp [hp, h1]
  · rw [if_neg hc]
    have hcount : ((c :: cs.take i).count '"') = (cs.take i).count '"' := by
      simp [List.count_cons, hc]
    rw [hcount]

theorem fieldBoundaries_cons (q : Bool) (c : Char) (cs : List Char) :
    fieldBoundaries q (c :: cs) =
      (if c = ',' ∧ q = false then [0] else []) ++
        (fieldBoundaries (if c = '"' then !q else q) cs).map Nat.succ := by
  unfold fieldBoundaries
  rw [List.length_cons, List.range_succ_eq_map, List.filter_cons,
    List.filter_map]
  have hpred : ((fun i => decide ((c :: cs).get? i = some ',') &&
      !(inQuoteAt q (c :: cs) i)) ∘ Nat.succ)
      = (fun i => decide (cs.get? i = some ',') &&
          !(inQuoteAt (if c = '"' then !q else q) cs i)) := by
    funext i
    exact boundaryPred_succ q c cs i
  rw [hpred]
  have h0 : (decide ((c :: cs).get? 0 = some ',') && !(inQuoteAt q (c :: cs) 0))
      = decide (c = ',' ∧ q = false) := by
    have hq0 : inQuoteAt q (c :: cs) 0 = q := by simp [inQuoteAt]
    rw [hq0]
    show (decide (some c = some ',') && !q) = _
    by_cases hc : c = ',' <;> cases q <;> simp [hc]
  rw [h0]
  by_cases hcq : c = ',' ∧ q = false
  · simp [hcq]
  · simp [hcq]

theorem cutAt_ne_nil (cs : List Char) (bs : List Nat) : cutAt cs bs ≠ [] := by
  cases bs <;> simp [cutAt]

theorem cutAt_map_succ (c : Char) (cs : List Char) (bs : List Nat) :
    cutAt (c :: cs) (bs.map Nat.succ) = consHead c (cutAt cs bs) := by
  cases bs with
  | nil => simp [cutAt, consHead]
  | cons b bs' =>
      have hmap : List.map ((fun x => x - (Nat.succ b + 1)) ∘ Nat.succ) bs'
          = List.map (fun x => x - (b + 1)) bs' := by
        apply List.map_congr_left
        intro x _
        simp only [Function.comp_apply]
        omega
      simp only [List.map_cons, cutAt, consHead, List.map_map, hmap]
      rfl

theorem cutAt_zero_cons (c : Char) (cs : List Char) (bs : List Nat) :
    cutAt (c :: cs) (0 :: bs.map Nat.succ) = [] :: cutAt cs bs := by
  have hmap : List.map ((fun x : Nat => x - (0 + 1)) ∘ Nat.succ) bs
      = List.map (fun x : Nat => x) bs := by
    apply List.map_congr_left
    intro x _
    simp only [Function.comp_apply]
    omega
  simp only [cutAt, List.take_zero, List.map_map, hmap, List.map_id']
  rfl

theorem consFirst_nil_of_ne {gs : List (List Char)} (h : gs ≠ []) :
    consFirst [] gs = gs.map trimChars := by
  cases gs with
  | nil => exact absurd rfl h
  | cons g gt => simp [consFirst]

theorem consFirst_cons_char (cur : List Char) (c : Char) (g : List Char)
    (gs : List (List Char)) :
    consFirst cur ((c :: g) :: gs) = consFirst (cur ++ [c]) (g :: gs) := by
  simp [consFirst, List.append_assoc]

theorem map_filter_consHead_quote (l : List (List Char)) (h : l ≠ []) :
    (consHead '"' l).map (fun seg => seg.filter fun c => c ≠ '"')
      = l.map (fun seg => seg.filter fun c => c ≠ '"') := by
  cases l with
  | nil => exact absurd rfl h
  | cons f fs => simp [consHead]

theorem go_eq_spec (rest : List Char) : ∀ (cur : List Char) (q : Bool),
    splitCSVLine.go rest cur q =
      consFirst cur ((cutAt rest (fieldBoundaries q rest)).map
        fun seg => seg.filter fun c => c ≠ '"') := by
  induction rest with
  | nil =>
      intro cur q
      simp [splitCSVLine.go, fieldBoundaries, cutAt, consFirst]
  | cons ch rest ih =>
      intro cur q
      rw [fieldBoundaries_cons]
      by_cases hq : ch = '"'
      · subst hq
        rw [show splitCSVLine.go ('"' :: rest) cur q
            = splitCSVLine.go rest cur (!q) from by simp [splitCSVLine.go]]
        rw [if_neg (by simp), List.nil_append, if_pos rfl, cutAt_map_succ,
          map_filter_consHead_quote _ (cutAt_ne_nil _ _), ih]
      · by_cases hcomma : ch = ',' ∧ q = false
        · obtain ⟨rfl, rfl⟩ := hcomma
          rw [show splitCSVLine.go (',' :: rest) cur false
              = trimChars cur :: splitCSVLine.go rest [] false from by
            simp [splitCSVLine.go]]
          rw [if_pos ⟨rfl, rfl⟩, if_neg (by decide),
            show ([0] : List Nat) ++ (fieldBoundaries false rest).map Nat.succ
              = 0 :: (fieldBoundaries false rest).map Nat.succ from rfl,
            cutAt_zero_cons, List.map_cons]
          show _ = consFirst cur (([] : List Char) ::
            (cutAt rest (fieldBoundaries false rest)).map
              fun seg => seg.filter fun c => c ≠ '"')
          simp only [consFirst, List.append_nil]
          congr 1
          rw [ih, consFirst_nil_of_ne]
          intro hmap
          exact cutAt_ne_nil rest _ (List.map_eq_nil.1 hmap)
        · rw [show splitCSVLine.go (ch :: rest) cur q
              = splitCSVLine.go rest (cur ++ [ch]) q from by
            simp [splitCSVLine.go, hq, hcomma]]
          rw [if_neg hcomma, List.nil_append, if_neg hq, cutAt_map_succ, ih]
          obtain ⟨f, fs, hcut⟩ :=
            List.exists_cons_of_ne_nil (cutAt_ne_nil rest (fieldBoundaries q rest))
          rw [hcut]
          show consFirst (cur ++ [ch]) _ = _
          simp only [consHead, List.map_cons, List.filter_cons]
          rw [if_pos (show (decide (ch ≠ '"')) = true by simpa using hq)]
          rw [consFirst_cons_char]

theorem plusThen_eq_true_iff (p : Char → Bool) (k : List Char → Bool) :
    ∀ cs : List Char, plusThen p k cs = true ↔
      ∃ a b : List Char,
        cs = a ++ b ∧ a ≠ [] ∧ (∀ c ∈ a, p c = true) ∧ k b = true := by
  intro cs
  induction cs with
  | nil =>
      constructor
      · intro h; exact absurd h (by simp [plusThen])
      · rintro ⟨a, b, hab, hne, -, -⟩
        cases a with
        | nil => exact absurd rfl hne
        | cons x xs => simp at hab
  | cons c rest ih =>
      constructor
      · intro h
        simp only [plusThen, Bool.and_eq_true, Bool.or_eq_true] at h
        rcases h with ⟨hp, hk | hplus⟩
        · exact ⟨[c], rest, rfl, by simp, by simpa using hp, hk⟩
        · rcases ih.1 hplus with ⟨a, b, rfl, hne, hall, hkb⟩
          refine ⟨c :: a, b, rfl, by simp, ?_, hkb⟩
          intro x hx
          rcases List.mem_cons.1 hx with rfl | hx
          exacts [hp, hall x hx]
      · rintro ⟨a, b, hab, hne, hall, hkb⟩
        cases a with
        | nil => exact absurd rfl hne
        | cons x xs =>
            rw [List.cons_append] at hab
            injection hab with h1 h2
            subst h1
            simp only [plusThen, Bool.and_eq_true, Bool.or_eq_true]
            refine ⟨hall c (by simp), ?_⟩
            cases xs with
            | nil =>
                left
                rw [h2, List.nil_append]
                exact hkb
            | cons y ys =>
                right
                refine ih.2 ⟨y :: ys, b, h2, by simp, ?_, hkb⟩
                intro u hu
                exact hall u (List.mem_cons_of_mem c hu)

theorem emailTail2_eq_true_iff (b : List Char) :
    emailTail2 b = true ↔
      ∃ t : List Char, b = '.' :: t ∧ t ≠ [] ∧ ∀ c ∈ t, emailChar c = true := by
  cases b with
  | nil => simp [emailTail2]
  | cons c r =>
      by_cases hc : c = '.'
      · subst hc
        rw [show emailTail2 ('.' :: r) = plusThen emailChar List.isEmpty r from by
          simp [emailTail2]]
        rw [plusThen_eq_true_iff]
        constructor
        · rintro ⟨t, b3, rfl, ht, hall, hempty⟩
          have hb3 : b3 = [] := by simpa using hempty
          subst hb3
          exact ⟨t, by simp, ht, hall⟩
        · rintro ⟨t, heq, ht, hall⟩
          injection heq with _ h2
          subst h2
          exact ⟨r, [], by simp, ht, hall, rfl⟩
      · simp [emailTail2, hc]

theorem emailTail1_eq_true_iff (b : List Char) :
    emailTail1 b = true ↔
      ∃ d t : List Char, b = '@' :: (d ++ '.' :: t) ∧ d ≠ [] ∧ t ≠ [] ∧
        (∀ c ∈ d, emailChar c = true) ∧ (∀ c ∈ t, emailChar c = true) := by
  cases b with
  | nil => simp [emailTail1]
  | cons c r =>
      by_cases hc : c = '@'
      · subst hc
        rw [show emailTail1 ('@' :: r) = plusThen emailChar emailTail2 r from by
          simp [emailTail1]]
        rw [plusThen_eq_true_iff]
        constructor
        · rintro ⟨d, b2, rfl, hd, halld, hk⟩
          obtain ⟨t, rfl, ht, hallt⟩ := (emailTail2_eq_true_iff b2).1 hk
          exact ⟨d, t, rfl, hd, ht, halld, hallt⟩
        · rintro ⟨d, t, heq, hd, ht, halld, hallt⟩
          injection heq with _ h2
          subst h2
          exact ⟨d, '.' :: t, rfl, hd, halld,
            (emailTail2_eq_true_iff _).2 ⟨t, rfl, ht, hallt⟩⟩
      · simp [emailTail1, hc]

theorem emailRegexTest_iff (s : String) :
    emailRegexTest s = true ↔ EmailShape s := by
  unfold emailRegexTest EmailShape
  rw [plusThen_eq_true_iff]
  constructor
  · rintro ⟨l, b, hb, hl, halll, hk⟩
    obtain ⟨d, t, rfl, hd, ht, halld, hallt⟩ := (emailTail1_eq_true_iff b).1 hk
    exact ⟨l, d, t, hb, hl, hd, ht, halll, halld, hallt⟩
  · rintro ⟨l, d, t, hdata, hl, hd, ht, halll, halld, hallt⟩
    exact ⟨l, '@' :: (d ++ '.' :: t), hdata, hl, halll,
      (emailTail1_eq_true_iff _).2 ⟨d, t, rfl, hd, ht, halld, hallt⟩⟩

/-! ## Claims -/

/-- C2: for every invoice state, the net total computed and displayed by the
app (`deliveryTotal - returnsTotal` from `calculateSectionTotal`) and the net
total printed by `generateInvoicePDF` both equal the sum of the `total`
fields of the deliveries list minus the sum of the `total` fields of the
returns list. -/
theorem netTotal_is_deliveries_minus_returns (inv : InvoiceData) :
    appNetTotal inv = sumOfTotals inv.deliveries - sumOfTotals inv.returns ∧
    pdfNetTotal inv = sumOfTotals inv.deliveries - sumOfTotals inv.returns := by
  constructor
  · unfold appNetTotal calculateSectionTotal
    rw [foldl_add_total, foldl_add_total]
    ring
  · unfold pdfNetTotal pdfSectionTotal
    rw [foldl_add_total, foldl_add_total]
    ring

/-- C8: `getColIndex` strips non-letter characters, upper-cases the rest,
and returns the zero-based column index under bijective base-26
interpretation (A ↦ 0, B ↦ 1, Z ↦ 25, AA ↦ 26); on a string with no letters
it returns -1. -/
theorem getColIndex_bijective_base26 :
    getColIndex "A" = 0 ∧ getColIndex "B" = 1 ∧ getColIndex "Z" = 25 ∧
    getColIndex "AA" = 26 ∧
    (∀ col : String,
      getColIndex col =
        bij26 ((col.data.filter Char.isAlpha).map Char.toUpper) - 1) ∧
    (∀ col : String, (col.data.filter Char.isAlpha) = [] →
      getColIndex col = -1) := by
  have key : ∀ col : String,
      getColIndex col =
        bij26 ((col.data.filter Char.isAlpha).map Char.toUpper) - 1 := by
    intro col
    show List.foldl _ 0 _ - 1 = _
    rw [foldl_horner]
    simp
  refine ⟨by decide, by decide, by decide, by decide, key, ?_⟩
  intro col h
  rw [key, h]
  simp [bij26]

/-- Closed witness for the no-letters branch of C8. -/
theorem getColIndex_bijective_base26_witness :
    getColIndex "7 !?" = -1 :=
  getColIndex_bijective_base26.2.2.2.2.2 "7 !?" (by decide)

/-- C1 as stated is false: `updateLineItem` with the field `total` (a member
of `keyof LineItem`, hence covered by "any field") stores the given value
without recalculation.  Starting from the initial state, adding an item and
then writing `total := 5` leaves an item with `total = 5` but
`quantity * cost = 1 * 0 = 0`. -/
theorem total_invariant_all_fields_counterexample :
    ¬ invariantHolds (runOps (initialInvoiceState "2024-01-01" "INV-1")
        [Op.add .deliveries "u1", Op.update .deliveries "u1" (.total 5)]) := by
  intro h
  have hmem := h { id := "u1", quantity := 1, description := "", cost := 0,
                   total := 5 }
  simp only [runOps, List.foldl, applyOp, addLineItem, updateLineItem,
    setList, getList, initialInvoiceState, newLineItem, applyField] at hmem
  norm_num [itemInv] at hmem

/-- C1 (amended): for every starting state whose line items all satisfy
`total = quantity * cost`, after any sequence of `addLineItem`,
`updateLineItem` on any field other than a direct write of `total` (i.e. on
`id`, `quantity`, `description` or `cost` — in particular `description`),
and OCR extraction via `extractInvoiceData` merged by `handleImageUpload`,
every line item in either list still has `total = quantity * cost`. -/
theorem total_invariant_preserved (inv : InvoiceData) (ops : List Op)
    (h0 : invariantHolds inv) (hops : ∀ op ∈ ops, op.allowed) :
    invariantHolds (runOps inv ops) := by
  induction ops generalizing inv with
  | nil => exact h0
  | cons op ops ih =>
      exact ih (applyOp inv op)
        (invariant_applyOp h0 (hops op (by simp)))
        (fun o ho => hops o (by simp [ho]))

/-- Closed witness for C1 (amended): a concrete add followed by a quantity
edit keeps the invariant. -/
theorem total_invariant_preserved_witness :
    invariantHolds (runOps (initialInvoiceState "2024-01-01" "INV-1")
        [Op.add .deliveries "u1", Op.update .deliveries "u1" (.quantity 3)]) :=
  total_invariant_preserved (initialInvoiceState "2024-01-01" "INV-1")
    [Op.add .deliveries "u1", Op.update .deliveries "u1" (.quantity 3)]
    (by decide) (by decide)

/-- C7 as stated is false: the per-item total and the section subtotals are
read from the stored `total` field, not derived from the current `quantity`
and `cost` at the point of use.  A representable item with `quantity = 2`,
`cost = 3`, stored `total = 7` yields a subtotal of 7, not 2 * 3. -/
theorem totals_lookup_counterexample :
    calculateSectionTotal
        [{ id := "x", quantity := 2, description := "", cost := 3, total := 7 }]
      ≠ (2 : Rat) * 3 := by
  norm_num [calculateSectionTotal, List.foldl]

/-- C7 (amended): the subtotals and the net total are recomputed at every
use from the line-item lists, reading each item's stored `total` field; on
every state satisfying the arithmetic invariant (which all reachable states
do), the values used therefore equal the ones derived from the current
`quantity` and `cost`, and the PDF recomputes the same net total as the
app. -/
theorem totals_derived_under_invariant (inv : InvoiceData)
    (h : invariantHolds inv) :
    calculateSectionTotal inv.deliveries
        = (inv.deliveries.map (fun it => it.quantity * it.cost)).sum ∧
    calculateSectionTotal inv.returns
        = (inv.returns.map (fun it => it.quantity * it.cost)).sum ∧
    appNetTotal inv
        = (inv.deliveries.map (fun it => it.quantity * it.cost)).sum
          - (inv.returns.map (fun it => it.quantity * it.cost)).sum ∧
    pdfNetTotal inv = appNetTotal inv := by
  rw [invariantHolds_iff] at h
  have hdel : calculateSectionTotal inv.deliveries
      = (inv.deliveries.map (fun it => it.quantity * it.cost)).sum := by
    unfold calculateSectionTotal
    rw [foldl_add_total]
    simp only [zero_add, sumOfTotals]
    exact congrArg List.sum (map_congr_mem (fun a ha => h.1 a ha))
  have hret : calculateSectionTotal inv.returns
      = (inv.returns.map (fun it => it.quantity * it.cost)).sum := by
    unfold calculateSectionTotal
    rw [foldl_add_total]
    simp only [zero_add, sumOfTotals]
    exact congrArg List.sum (map_congr_mem (fun a ha => h.2 a ha))
  refine ⟨hdel, hret, ?_, rfl⟩
  unfold appNetTotal
  rw [hdel, hret]

/-- Closed witness for C7 (amended) at a concrete invariant-satisfying
state. -/
theorem totals_derived_under_invariant_witness :
    calculateSectionTotal
        [{ id := "x", quantity := 2, description := "", cost := 3, total := 6 }]
      = (([{ id := "x", quantity := 2, description := "", cost := 3,
             total := 6 }] : List LineItem).map
          (fun it => it.quantity * it.cost)).sum :=
  (totals_derived_under_invariant
    { initialInvoiceState "d" "n" with
      deliveries := [{ id := "x", quantity := 2, description := "", cost := 3,
                       total := 6 }] }
    (by
      intro it hit
      simp only [initialInvoiceState, List.append_nil, List.mem_singleton] at hit
      subst hit
      norm_num [itemInv])).1

/-- C9: after a successful OCR extraction, the merge in `handleImageUpload`
keeps the previous invoice number when the extracted one is empty, keeps the
existing deliveries when the extraction returned no delivery items, and
always replaces the returns list with the empty list. -/
theorem ocr_merge_frame (prev : InvoiceData) (uuidGen : Nat → String)
    (today : String) (raw : RawInvoice) :
    (raw.invoiceNumber = "" →
      (mergeExtracted prev (extractInvoiceData uuidGen today raw)).invoiceNumber
        = prev.invoiceNumber) ∧
    (raw.deliveries = [] →
      (mergeExtracted prev (extractInvoiceData uuidGen today raw)).deliveries
        = prev.deliveries) ∧
    (mergeExtracted prev (extractInvoiceData uuidGen today raw)).returns = [] := by
  refine ⟨fun h => ?_, fun h => ?_, ?_⟩
  · simp [mergeExtracted, extractInvoiceData, h]
  · simp [mergeExtracted, extractInvoiceData, h]
  · simp [mergeExtracted, extractInvoiceData]

/-- Closed witness for C9 at a concrete extraction with empty invoice number
and no delivery items, over a form that had a nonempty returns list. -/
theorem ocr_merge_frame_witness :
    (mergeExtracted
        { initialInvoiceState "d" "n" with
          returns := [{ id := "r", quantity := 1, description := "",
                        cost := 2, total := 2 }] }
        (extractInvoiceData (fun _ => "u") "t"
          { invoiceNumber := "", date := "", vendorName := "V",
            vendorEmail := "", deliveries := [] })).invoiceNumber = "n" ∧
    (mergeExtracted
        { initialInvoiceState "d" "n" with
          returns := [{ id := "r", quantity := 1, description := "",
                        cost := 2, total := 2 }] }
        (extractInvoiceData (fun _ => "u") "t"
          { invoiceNumber := "", date := "", vendorName := "V",
            vendorEmail := "", deliveries := [] })).deliveries = [] ∧
    (mergeExtracted
        { initialInvoiceState "d" "n" with
          returns := [{ id := "r", quantity := 1, description := "",
                        cost := 2, total := 2 }] }
        (extractInvoiceData (fun _ => "u") "t"
          { invoiceNumber := "", date := "", vendorName := "V",
            vendorEmail := "", deliveries := [] })).returns = [] := by
  have h := ocr_merge_frame
    { initialInvoiceState "d" "n" with
      returns := [{ id := "r", quantity := 1, description := "",
                    cost := 2, total := 2 }] }
    (fun _ => "u") "t"
    { invoiceNumber := "", date := "", vendorName := "V",
      vendorEmail := "", deliveries := [] }
  exact ⟨h.1 rfl, h.2.1 rfl, h.2.2⟩

/-- C10: `removeLineItem` and `updateLineItem` on one list leave the other
list and every header field unchanged, leave every item whose id differs
unchanged, and are no-ops when no item has the given id. -/
theorem remove_update_frame (inv : InvoiceData) (sec : ItemSection)
    (id : String) (f : FieldUpdate) :
    getList (removeLineItem inv sec id) (otherSection sec)
        = getList inv (otherSection sec) ∧
    getList (updateLineItem inv sec id f) (otherSection sec)
        = getList inv (otherSection sec) ∧
    headerOf (removeLineItem inv sec id) = headerOf inv ∧
    headerOf (updateLineItem inv sec id f) = headerOf inv ∧
    (∀ it ∈ getList inv sec, it.id ≠ id →
      it ∈ getList (removeLineItem inv sec id) sec) ∧
    (∀ i : Nat, ∀ hi : i < (getList inv sec).length,
      ((getList inv sec).get ⟨i, hi⟩).id ≠ id →
      (getList (updateLineItem inv sec id f) sec).get? i
        = some ((getList inv sec).get ⟨i, hi⟩)) ∧
    ((∀ it ∈ getList inv sec, it.id ≠ id) →
      removeLineItem inv sec id = inv ∧ updateLineItem inv sec id f = inv) := by
  refine ⟨?_, ?_, ?_, ?_, ?_, ?_, ?_⟩
  · exact getList_setList_other inv sec _
  · exact getList_setList_other inv sec _
  · exact headerOf_setList inv sec _
  · exact headerOf_setList inv sec _
  · intro it hit hne
    rw [removeLineItem, getList_setList_same]
    exact List.mem_filter.2 ⟨hit, by simpa using hne⟩
  · intro i hi hne
    rw [updateLineItem, getList_setList_same, List.get?_map,
      List.get?_eq_get hi]
    simp only [Option.map_some']
    rw [if_neg hne]
  · intro hnone
    constructor
    · rw [removeLineItem, filter_eq_self_of _ _
        (fun a ha => by simpa using hnone a ha)]
      exact setList_getList inv sec
    · rw [updateLineItem, map_eq_self_of _ _
        (fun a ha => by simp [hnone a ha])]
      exact setList_getList inv sec

/-- Closed witness for C10: on a state whose only delivery item has id "a",
removing or updating id "b" is a no-op, and the item with the differing id
is untouched. -/
theorem remove_update_frame_witness :
    removeLineItem
        { initialInvoiceState "d" "n" with
          deliveries := [{ id := "a", quantity := 1, description := "",
                           cost := 2, total := 2 }] }
        .deliveries "b"
      = { initialInvoiceState "d" "n" with
          deliveries := [{ id := "a", quantity := 1, description := "",
                           cost := 2, total := 2 }] } ∧
    updateLineItem
        { initialInvoiceState "d" "n" with
          deliveries := [{ id := "a", quantity := 1, description := "",
                           cost := 2, total := 2 }] }
        .deliveries "b" (.cost 5)
      = { initialInvoiceState "d" "n" with
          deliveries := [{ id := "a", quantity := 1, description := "",
                           cost := 2, total := 2 }] } :=
  (remove_update_frame
    { initialInvoiceState "d" "n" with
      deliveries := [{ id := "a", quantity := 1, description := "",
                       cost := 2, total := 2 }] }
    .deliveries "b" (.cost 5)).2.2.2.2.2.2 (by decide)

/-- C3: the hand-rolled CSV line splitter splits every line exactly at the
commas preceded by an even number of double-quote characters — a comma
between an odd-numbered double quote and the following one (inside a quoted
field) starts no new field — so quoted fields containing commas come back
as a single field, with the quote characters dropped and the field
trimmed. -/
theorem splitCSVLine_eq_spec (line : List Char) :
    splitCSVLine line = specSplitLine line := by
  rw [splitCSVLine, specSplitLine, go_eq_spec, consFirst_nil_of_ne]
  · rw [List.map_map]
    rfl
  · intro h
    exact cutAt_ne_nil line _ (List.map_eq_nil_iff.1 h)

/-- C4: `validateForm` returns true iff the trimmed vendor name is
non-empty, the trimmed invoice number is non-empty, and the vendor email is
non-empty and matches the email pattern (non-empty local part, `@`,
non-empty domain part, `.`, non-empty suffix, all three parts free of
whitespace and `@`); and an error message is recorded for a field exactly
when that field's check fails. -/
theorem validateForm_characterization (fd : InvoiceData) :
    ((validateForm fd).2 = true ↔
      (fd.vendorName.trim ≠ "" ∧ fd.invoiceNumber.trim ≠ "" ∧
       fd.vendorEmail ≠ "" ∧ EmailShape fd.vendorEmail)) ∧
    ((validateForm fd).1.vendorName.isSome = true ↔
      fd.vendorName.trim = "") ∧
    ((validateForm fd).1.invoiceNumber.isSome = true ↔
      fd.invoiceNumber.trim = "") ∧
    ((validateForm fd).1.vendorEmail.isSome = true ↔
      ¬ (fd.vendorEmail ≠ "" ∧ EmailShape fd.vendorEmail)) := by
  rw [← emailRegexTest_iff]
  unfold validateForm validateFormErrors
  rcases Bool.eq_false_or_eq_true (emailRegexTest fd.vendorEmail) with ht | ht <;>
    by_cases hn : fd.vendorName.trim = "" <;>
    by_cases hi : fd.invoiceNumber.trim = "" <;>
    by_cases he : fd.vendorEmail = "" <;>
    simp [hn, hi, he, ht]

/-- C5: `handleSubmit` calls `generateInvoicePDF` exactly when validation
succeeds and both signatures are present; in every other case the failure
surfaces as an alert and no PDF call is made. -/
theorem handleSubmit_gates_pdf (fd : InvoiceData) (v r : Option String) :
    ((∃ a b m, handleSubmit fd v r = SubmitOutcome.generated fd a b m) ↔
      ((validateForm fd).2 = true ∧ v.isSome = true ∧ r.isSome = true)) ∧
    (¬ ((validateForm fd).2 = true ∧ v.isSome = true ∧ r.isSome = true) →
      ∃ m, handleSubmit fd v r = SubmitOutcome.alerted m) := by
  rcases Bool.eq_false_or_eq_true (validateForm fd).2 with hb | hb <;>
    cases v <;> cases r <;> simp [handleSubmit, hb]

/-- Closed witness for C5: with both signatures missing the submit surfaces
an alert. -/
theorem handleSubmit_gates_pdf_witness :
    ∃ m, handleSubmit (initialInvoiceState "2024-01-01" "INV-1") none none
      = SubmitOutcome.alerted m :=
  (handleSubmit_gates_pdf (initialInvoiceState "2024-01-01" "INV-1")
    none none).2 (by simp)

/-- C6: whenever `fetchVendorsFromSheet` fails — missing sheet id or name,
a rejected fetch, a non-ok response, or zero valid vendors parsed — a
non-empty error message is recorded, the fetching flag ends up false, and
the previously loaded vendor list is unchanged (vendors are only replaced
on success). -/
theorem fetchVendors_failure_recovery (s : SheetState) (fr : FetchResult)
    (hidle : s.isFetchingVendors = false)
    (hfail : s.sheetId = "" ∨ s.sheetName = "" ∨
      (∃ m, fr = .networkFailure m) ∨ (∃ b, fr = .response false b) ∨
      (∃ b, fr = .response true b ∧
        parseVendors b (getColIndex s.nameCol) (getColIndex s.emailCol) = [])) :
    (∃ m, (fetchVendorsFromSheet s fr).sheetError = some m ∧ m ≠ "") ∧
    (fetchVendorsFromSheet s fr).isFetchingVendors = false ∧
    (fetchVendorsFromSheet s fr).vendors = s.vendors := by
  unfold fetchVendorsFromSheet
  by_cases hmiss : s.sheetId = "" ∨ s.sheetName = ""
  · rw [if_pos hmiss]
    exact ⟨⟨_, rfl, by decide⟩, hidle, rfl⟩
  · rw [if_neg hmiss]
    rcases hfail with h | h | ⟨m, rfl⟩ | ⟨b, rfl⟩ | ⟨b, rfl, hpar⟩
    · exact absurd (Or.inl h) hmiss
    · exact absurd (Or.inr h) hmiss
    · refine ⟨⟨if m = "" then "Failed to fetch data." else m, rfl, ?_⟩, rfl, rfl⟩
      by_cases hm : m = "" <;> simp [hm]
    · exact ⟨⟨_, rfl, by decide⟩, rfl, rfl⟩
    · exact ⟨⟨"No valid vendors found. Check column letters.",
        by simp [hpar], by decide⟩, by simp [hpar], by simp [hpar]⟩

/-- Closed witness for C6: a missing spreadsheet id records an error, keeps
the flag false, and leaves the (empty) vendor list alone. -/
theorem fetchVendors_failure_recovery_witness :
    (∃ m, (fetchVendorsFromSheet
        { sheetId := "", sheetName := "DeliveryApp", nameCol := "A",
          emailCol := "B", vendors := [], sheetError := none,
          isFetchingVendors := false, showSheetConfig := false }
        (FetchResult.networkFailure "boom")).sheetError = some m ∧ m ≠ "") ∧
    (fetchVendorsFromSheet
        { sheetId := "", sheetName := "DeliveryApp", nameCol := "A",
          emailCol := "B", vendors := [], sheetError := none,
          isFetchingVendors := false, showSheetConfig := false }
        (FetchResult.networkFailure "boom")).isFetchingVendors = false ∧
    (fetchVendorsFromSheet
        { sheetId := "", sheetName := "DeliveryApp", nameCol := "A",
          emailCol := "B", vendors := [], sheetError := none,
          isFetchingVendors := false, showSheetConfig := false }
        (FetchResult.networkFailure "boom")).vendors = [] :=
  fetchVendors_failure_recovery
    { sheetId := "", sheetName := "DeliveryApp", nameCol := "A",
      emailCol := "B", vendors := [], sheetError := none,
      isFetchingVendors := false, showSheetConfig := false }
    (FetchResult.networkFailure "boom") rfl (Or.inl rfl)

end DeliveryApp
